import Mathlib

/-!
Verification of the Rollkit block-header core (`types/header.go`): the header
data model, its structural validation (`ValidateBasic`/`Validate`), the
trust-continuity check (`Verify`), the accessors, and the CometBFT
precommit-vote sign-bytes encoding (`MakeCometBFTVote`).

Bytes are modelled as natural numbers and byte sequences (Go `[]byte`,
including `header.Hash`) as `List Nat`; unsigned 64-bit quantities are `Nat`
with reductions mod `2 ^ 64` made explicit where the Go code casts.
-/

set_option linter.unusedVariables false

namespace Rollkit

/-- A byte sequence (Go `[]byte`). -/
abbrev Bytes := List Nat

/-- `Hash` is a byte sequence used to represent a hash result
    (alias of the external `header.Hash`, itself `[]byte`). -/
abbrev Hash := Bytes

/-- `BaseHeader` contains the most basic data of a header:
    block height, Unix nanotime, and chain ID (src/types/header.go). -/
structure BaseHeader where
  Height : Nat
  Time : Nat
  ChainID : String
deriving DecidableEq

/-- Modelled from the spec: `Version` is the block/app version pair (§3);
    its Go definition is repository code not included under src/. -/
structure Version where
  Block : Nat
  App : Nat
deriving DecidableEq

/-- `Header` defines the structure of a Rollkit block header
    (src/types/header.go): it embeds `BaseHeader` and carries the version,
    the previous-header link, the content-commitment hashes, and the
    proposer address. -/
structure Header where
  baseHeader : BaseHeader
  version : Version
  LastHeaderHash : Hash
  LastCommitHash : Hash
  DataHash : Hash
  ConsensusHash : Hash
  AppHash : Hash
  ValidatorHash : Hash
  LastResultsHash : Hash
  ProposerAddress : Bytes
deriving DecidableEq

/-- Modelled from the spec: the two error kinds of this layer (§7).
    `noProposerAddress` models `ErrNoProposerAddress` (declared in repository
    code not included under src/); `verifyError` models the external
    `header.VerifyError`, whose `Reason` carries a diagnostic message. -/
inductive HeaderError where
  | noProposerAddress
  | verifyError (reason : String)
deriving DecidableEq

/-- Upper-case hexadecimal digit for a value below 16. -/
def hexDigit (n : Nat) : Char :=
  if n < 10 then Char.ofNat (48 + n) else Char.ofNat (55 + n)

/-- Go `fmt` verb `%X` applied to a byte slice: two upper-case hex digits
    per byte. -/
def hexUpper (bs : Bytes) : String :=
  String.mk (bs.flatMap fun b => [hexDigit (b / 16 % 16), hexDigit (b % 16)])

/-- The diagnostic message built by `Header.Verify` on a proposer mismatch:
    `fmt.Errorf("expected proposer (%X) got (%X)", h.ProposerAddress,
    untrstH.ProposerAddress)`. -/
def mismatchMsg (trusted untrusted : Bytes) : String :=
  "expected proposer (" ++ hexUpper trusted ++ ") got (" ++ hexUpper untrusted ++ ")"

/-- The all-zero header value (Go `new(Header)`). -/
def zeroHeader : Header :=
  { baseHeader := { Height := 0, Time := 0, ChainID := "" }
    version := { Block := 0, App := 0 }
    LastHeaderHash := []
    LastCommitHash := []
    DataHash := []
    ConsensusHash := []
    AppHash := []
    ValidatorHash := []
    LastResultsHash := []
    ProposerAddress := [] }

/-- `New` creates a new (zero) header; the Go receiver is ignored. -/
def Header.New (_h : Option Header) : Option Header :=
  some zeroHeader

/-- `IsZero` returns true if the header (a Go pointer, modelled as an
    `Option`) is nil. -/
def Header.IsZero (h : Option Header) : Bool :=
  h.isNone

/-- `ChainID` returns the chain ID of the header. -/
def Header.ChainID (h : Header) : String :=
  h.baseHeader.ChainID

/-- `Height` returns the height of the header. -/
def Header.Height (h : Header) : Nat :=
  h.baseHeader.Height

/-- `LastHeader` returns the last header hash of the header. -/
def Header.LastHeader (h : Header) : Hash :=
  h.LastHeaderHash

/-- Go's conversion `int64(n)` of an unsigned 64-bit quantity: the value of
    the low 64 bits read as a two's-complement signed integer. -/
def int64cast (n : Nat) : Int :=
  if n % 2 ^ 64 < 2 ^ 63 then ((n % 2 ^ 64 : Nat) : Int)
  else ((n % 2 ^ 64 : Nat) : Int) - 2 ^ 64

/-- `Time` returns the header timestamp, `time.Unix(0, int64(h.BaseHeader.Time))`,
    modelled as the signed number of nanoseconds since the Unix epoch. -/
def Header.Time (h : Header) : Int :=
  int64cast h.baseHeader.Time

/-- `Verify` verifies a candidate header against the trusted receiver:
    it fails exactly when the two `ProposerAddress` byte sequences are not
    equal, returning a `VerifyError` whose reason shows both addresses. -/
def Header.Verify (h untrstH : Header) : Except HeaderError Unit :=
  if untrstH.ProposerAddress ≠ h.ProposerAddress then
    .error (.verifyError (mismatchMsg h.ProposerAddress untrstH.ProposerAddress))
  else
    .ok ()

/-- `ValidateBasic` performs basic validation of a header: it fails with
    `ErrNoProposerAddress` exactly when the proposer address is empty. -/
def Header.ValidateBasic (h : Header) : Except HeaderError Unit :=
  if h.ProposerAddress.length = 0 then
    .error .noProposerAddress
  else
    .ok ()

/-- `Validate` performs basic validation of a header by delegating to
    `ValidateBasic`. -/
def Header.Validate (h : Header) : Except HeaderError Unit :=
  h.ValidateBasic

/-- A sample 2-byte proposer address. -/
def addrA : Bytes := [170, 170]

/-- Another sample 2-byte proposer address. -/
def addrB : Bytes := [187, 187]

/-- A sample header on chain "rollkit-test" with proposer `addrA`. -/
def hdrA : Header :=
  { zeroHeader with
    baseHeader := { Height := 5, Time := 1000000001, ChainID := "rollkit-test" }
    ProposerAddress := addrA }

/-- A sample header on a different chain, with different version and
    last-header hash, and proposer `addrB`. -/
def hdrB : Header :=
  { zeroHeader with
    baseHeader := { Height := 6, Time := 2000000002, ChainID := "other-chain" }
    version := { Block := 1, App := 2 }
    LastHeaderHash := [7, 7, 7]
    ProposerAddress := addrB }

/-- Like `hdrB` but with proposer `addrA`. -/
def hdrB' : Header :=
  { hdrB with ProposerAddress := addrA }

/-- C1: `Verify(trusted, candidate)` fails if and only if the two proposer
    addresses differ as byte sequences, in which case the error carries both
    addresses in upper-case hex (trusted first, then candidate); it succeeds
    exactly when they are byte-equal, independent of every other field. -/
theorem verify_proposer_mismatch_iff (t c : Header) :
    (t.Verify c =
        .error (.verifyError (mismatchMsg t.ProposerAddress c.ProposerAddress)) ↔
      c.ProposerAddress ≠ t.ProposerAddress) ∧
    (t.Verify c = .ok () ↔ c.ProposerAddress = t.ProposerAddress) := by
  unfold Header.Verify
  by_cases hp : c.ProposerAddress = t.ProposerAddress <;> simp [hp]

/-- Witness for C1: on the sample headers with distinct proposers, `Verify`
    fails with the mismatch error carrying both addresses. -/
theorem verify_proposer_mismatch_iff_witness :
    hdrA.Verify hdrB =
      .error (.verifyError (mismatchMsg hdrA.ProposerAddress hdrB.ProposerAddress)) :=
  (verify_proposer_mismatch_iff hdrA hdrB).1.mpr (by decide)

/-- The mismatch diagnostic indeed renders both addresses in hex: for
    `addrA = AAAA` and `addrB = BBBB` the reason text is as printed by Go. -/
theorem mismatchMsg_hex_sample :
    mismatchMsg addrA addrB = "expected proposer (AAAA) got (BBBB)" := by
  decide

/-- C2: `ValidateBasic(h)` fails with `ErrNoProposerAddress` if and only if
    the proposer address has zero length, and succeeds for any non-empty
    proposer address regardless of all other fields. -/
theorem validateBasic_iff (h : Header) :
    (h.ValidateBasic = .error .noProposerAddress ↔ h.ProposerAddress.length = 0) ∧
    (h.ProposerAddress.length ≠ 0 → h.ValidateBasic = .ok ()) := by
  unfold Header.ValidateBasic
  by_cases hp : h.ProposerAddress.length = 0 <;> simp [hp]

/-- Witness for C2: the empty-proposer header is rejected with
    `noProposerAddress`, and `hdrA` (non-empty proposer, arbitrary other
    fields) validates. -/
theorem validateBasic_iff_witness :
    zeroHeader.ValidateBasic = .error .noProposerAddress ∧
      hdrA.ValidateBasic = .ok () :=
  ⟨(validateBasic_iff zeroHeader).1.mpr (by decide),
   (validateBasic_iff hdrA).2 (by decide)⟩

/-- C7: `IsZero` is a total function on the optional header (so it is
    callable on the nil reference), and it returns `true` exactly on nil;
    in particular it returns `false` on every constructed header. -/
theorem isZero_iff_nil (h : Option Header) :
    (Header.IsZero h = true ↔ h = none) ∧
    (∀ hdr : Header, h = some hdr → Header.IsZero h = false) := by
  cases h <;> simp [Header.IsZero]

/-- Witness for C7: nil is zero, and the all-zero-fields header is not. -/
theorem isZero_iff_nil_witness :
    Header.IsZero none = true ∧ Header.IsZero (some zeroHeader) = false :=
  ⟨(isZero_iff_nil none).1.mpr rfl,
   (isZero_iff_nil (some zeroHeader)).2 zeroHeader rfl⟩

/-- C9: `Validate` returns exactly the result of `ValidateBasic` on every
    header: the two entry points are interchangeable. -/
theorem validate_eq_validateBasic (h : Header) :
    h.Validate = h.ValidateBasic :=
  rfl

/-- C10: `Verify` performs no chain-identity or version check: whenever the
    proposer addresses agree byte-for-byte, it succeeds, with no constraint
    relating `ChainID`, `version`, `LastHeaderHash`, or any other field of
    the two headers. -/
theorem verify_ignores_chain_identity (t c : Header)
    (hp : c.ProposerAddress = t.ProposerAddress) :
    t.Verify c = .ok () := by
  simp [Header.Verify, hp]

/-- Witness for C10: `hdrA` and `hdrB'` share a proposer but differ in
    chain ID, version, and last-header hash, and `Verify` accepts. -/
theorem verify_ignores_chain_identity_witness :
    hdrA.ChainID ≠ hdrB'.ChainID ∧ hdrA.version ≠ hdrB'.version ∧
      hdrA.LastHeaderHash ≠ hdrB'.LastHeaderHash ∧
      hdrA.Verify hdrB' = .ok () :=
  ⟨by decide, by decide, by decide,
   verify_ignores_chain_identity hdrA hdrB' (by decide)⟩

/-- C4: for a header whose raw `Time` field fits in the signed 64-bit
    nanosecond range, the derived timestamp is exactly epoch plus that many
    nanoseconds — no truncation, no adjustment. -/
theorem time_exact_nanos (h : Header) (ht : h.baseHeader.Time < 2 ^ 63) :
    h.Time = (h.baseHeader.Time : Int) := by
  unfold Header.Time int64cast
  rw [Nat.mod_eq_of_lt (lt_trans ht (by norm_num))]
  rw [if_pos ht]

/-- Witness for C4: `hdrA` stores 1000000001 ns and its timestamp is exactly
    1000000001 ns past the epoch. -/
theorem time_exact_nanos_witness :
    hdrA.baseHeader.Time < 2 ^ 63 ∧ hdrA.Time = (1000000001 : Int) :=
  ⟨by decide, time_exact_nanos hdrA (by decide)⟩

/-! ### Byte-level encoding machinery

Unsigned LEB128 varints, fixed-width reads, and length-delimited chunks.
These are shared by the binary header codec and the model of the CometBFT
vote-sign-bytes wire format. -/

/-- Unsigned LEB128 (protobuf varint) encoding of a natural number. -/
def uvarint (n : Nat) : Bytes :=
  if n < 128 then [n]
  else (128 + n % 128) :: uvarint (n / 128)
termination_by n
decreasing_by exact Nat.div_lt_self (by omega) (by omega)

/-- Read one unsigned LEB128 varint off the front of a byte sequence. -/
def parseUvarint : Bytes → Option (Nat × Bytes)
  | [] => none
  | b :: rest =>
    if b < 128 then some (b, rest)
    else
      match parseUvarint rest with
      | some (m, rest') => some (b - 128 + 128 * m, rest')
      | none => none

theorem parseUvarint_uvarint (n : Nat) (rest : Bytes) :
    parseUvarint (uvarint n ++ rest) = some (n, rest) := by
  induction n using Nat.strong_induction_on generalizing rest with
  | _ n ih =>
    rw [uvarint]
    by_cases h : n < 128
    · simp [h, parseUvarint]
    · have hlt : n / 128 < n := Nat.div_lt_self (by omega) (by omega)
      simp only [if_neg h, List.cons_append, parseUvarint, if_neg (by omega : ¬ 128 + n % 128 < 128)]
      rw [ih (n / 128) hlt rest]
      simp only [Option.some.injEq, Prod.mk.injEq, and_true]
      omega

theorem parseUvarint_uvarint_nil (n : Nat) :
    parseUvarint (uvarint n) = some (n, []) := by
  simpa using parseUvarint_uvarint n []

/-- Read exactly `n` bytes off the front of a byte sequence. -/
def readN : Nat → Bytes → Option (Bytes × Bytes)
  | 0, bs => some ([], bs)
  | _ + 1, [] => none
  | n + 1, b :: bs =>
    match readN n bs with
    | some (xs, rest) => some (b :: xs, rest)
    | none => none

theorem readN_append (xs rest : Bytes) :
    readN xs.length (xs ++ rest) = some (xs, rest) := by
  induction xs with
  | nil => rfl
  | cons b bs ih => simp [readN, ih]

/-- A length-delimited chunk: varint byte count, then the bytes. -/
def lenDelim (bs : Bytes) : Bytes :=
  uvarint bs.length ++ bs

/-- Read one length-delimited chunk off the front of a byte sequence. -/
def parseLenDelim (bs : Bytes) : Option (Bytes × Bytes) :=
  match parseUvarint bs with
  | some (n, rest) => readN n rest
  | none => none

theorem parseLenDelim_lenDelim (xs rest : Bytes) :
    parseLenDelim (lenDelim xs ++ rest) = some (xs, rest) := by
  simp [parseLenDelim, lenDelim, parseUvarint_uvarint, readN_append]

theorem parseLenDelim_lenDelim_nil (xs : Bytes) :
    parseLenDelim (lenDelim xs) = some (xs, []) := by
  simpa using parseLenDelim_lenDelim xs []

/-- Encoding of a string: character count, then each character's code point
    as a varint. -/
def strEnc (s : String) : Bytes :=
  uvarint s.data.length ++ s.data.flatMap fun c => uvarint c.toNat

/-- Read `n` varint-coded characters off the front of a byte sequence. -/
def readChars : Nat → Bytes → Option (List Char × Bytes)
  | 0, bs => some ([], bs)
  | n + 1, bs =>
    match parseUvarint bs with
    | some (c, rest) =>
      match readChars n rest with
      | some (cs, rest') => some (Char.ofNat c :: cs, rest')
      | none => none
    | none => none

/-- Read one length-prefixed string off the front of a byte sequence. -/
def parseStr (bs : Bytes) : Option (String × Bytes) :=
  match parseUvarint bs with
  | some (n, rest) =>
    match readChars n rest with
    | some (cs, rest') => some (String.mk cs, rest')
    | none => none
  | none => none

theorem readChars_append (cs : List Char) (rest : Bytes) :
    readChars cs.length ((cs.flatMap fun c => uvarint c.toNat) ++ rest) =
      some (cs, rest) := by
  induction cs generalizing rest with
  | nil => rfl
  | cons c cs ih =>
    simp only [List.flatMap_cons, List.length_cons, List.append_assoc, readChars,
      parseUvarint_uvarint, ih, Char.ofNat_toNat]

theorem parseStr_strEnc (s : String) (rest : Bytes) :
    parseStr (strEnc s ++ rest) = some (s, rest) := by
  cases s with
  | mk cs =>
    simp only [parseStr, strEnc, List.append_assoc, parseUvarint_uvarint,
      readChars_append]

/-! ### Binary header codec -/

/-- Encoding of a `BaseHeader`: height, time, chain ID. -/
def baseHeaderEnc (b : BaseHeader) : Bytes :=
  uvarint b.Height ++ uvarint b.Time ++ strEnc b.ChainID

/-- Read a `BaseHeader` off the front of a byte sequence. -/
def parseBaseHeader (bs : Bytes) : Option (BaseHeader × Bytes) := do
  let (height, bs) ← parseUvarint bs
  let (time, bs) ← parseUvarint bs
  let (chainID, bs) ← parseStr bs
  some ({ Height := height, Time := time, ChainID := chainID }, bs)

theorem parseBaseHeader_enc (b : BaseHeader) (rest : Bytes) :
    parseBaseHeader (baseHeaderEnc b ++ rest) = some (b, rest) := by
  unfold baseHeaderEnc parseBaseHeader
  simp only [List.append_assoc, parseUvarint_uvarint, parseStr_strEnc,
    Option.bind_eq_bind, Option.some_bind]

/-- Encoding of a `Version`: block version, then app version. -/
def versionEnc (v : Version) : Bytes :=
  uvarint v.Block ++ uvarint v.App

/-- Read a `Version` off the front of a byte sequence. -/
def parseVersion (bs : Bytes) : Option (Version × Bytes) := do
  let (vblock, bs) ← parseUvarint bs
  let (vapp, bs) ← parseUvarint bs
  some ({ Block := vblock, App := vapp }, bs)

theorem parseVersion_enc (v : Version) (rest : Bytes) :
    parseVersion (versionEnc v ++ rest) = some (v, rest) := by
  unfold versionEnc parseVersion
  simp only [List.append_assoc, parseUvarint_uvarint,
    Option.bind_eq_bind, Option.some_bind]

/-- Encoding of a list of byte sequences as consecutive length-delimited
    chunks. -/
def chunksEnc (ls : List Bytes) : Bytes :=
  ls.flatMap lenDelim

/-- Read `n` length-delimited chunks off the front of a byte sequence. -/
def parseChunks : Nat → Bytes → Option (List Bytes × Bytes)
  | 0, bs => some ([], bs)
  | n + 1, bs =>
    match parseLenDelim bs with
    | some (x, rest) =>
      match parseChunks n rest with
      | some (xs, rest') => some (x :: xs, rest')
      | none => none
    | none => none

theorem parseChunks_enc (ls : List Bytes) (rest : Bytes) :
    parseChunks ls.length (chunksEnc ls ++ rest) = some (ls, rest) := by
  induction ls generalizing rest with
  | nil => rfl
  | cons x xs ih =>
    simp only [chunksEnc, List.flatMap_cons, List.length_cons, List.append_assoc,
      parseChunks, parseLenDelim_lenDelim]
    rw [show xs.flatMap lenDelim = chunksEnc xs from rfl, ih rest]

/-- Modelled from the spec: the deterministic binary serialization of a
    header (§6), realizing the `BinaryMarshaler` capability asserted in
    src/types/header.go; the concrete marshaling routine is repository code
    not included under src/. Every field is emitted in a fixed order:
    base header (height, time, chain ID), version pair, then the seven
    hashes and the proposer address as length-delimited chunks. -/
def Header.MarshalBinary (h : Header) : Bytes :=
  baseHeaderEnc h.baseHeader ++ versionEnc h.version ++
    chunksEnc [h.LastHeaderHash, h.LastCommitHash, h.DataHash,
      h.ConsensusHash, h.AppHash, h.ValidatorHash, h.LastResultsHash,
      h.ProposerAddress]

/-- Modelled from the spec: the inverse deserialization of
    `Header.MarshalBinary` (`BinaryUnmarshaler`, §6), parsing the fields in
    the same fixed order and requiring the input to be consumed exactly. -/
def Header.UnmarshalBinary (bs : Bytes) : Option Header := do
  let (base, bs) ← parseBaseHeader bs
  let (ver, bs) ← parseVersion bs
  let (chunks, bs) ← parseChunks 8 bs
  match chunks, bs with
  | [lhh, lch, dh, ch, ah, vh, lrh, pa], [] =>
    some { baseHeader := base
           version := ver
           LastHeaderHash := lhh
           LastCommitHash := lch
           DataHash := dh
           ConsensusHash := ch
           AppHash := ah
           ValidatorHash := vh
           LastResultsHash := lrh
           ProposerAddress := pa }
  | _, _ => none

/-- C6: decode after encode is the identity on every header — the binary
    round-trip law `decode(encode(h)) = h`, field-wise. -/
theorem unmarshal_marshal_roundtrip (h : Header) :
    Header.UnmarshalBinary h.MarshalBinary = some h := by
  unfold Header.MarshalBinary Header.UnmarshalBinary
  simp only [List.append_assoc]
  rw [parseBaseHeader_enc]
  simp only [Option.bind_eq_bind, Option.some_bind]
  rw [parseVersion_enc]
  simp only [Option.some_bind]
  have h8 := parseChunks_enc [h.LastHeaderHash, h.LastCommitHash, h.DataHash,
    h.ConsensusHash, h.AppHash, h.ValidatorHash, h.LastResultsHash,
    h.ProposerAddress] []
  simp only [List.length_cons, List.length_nil, List.append_nil] at h8
  rw [h8]
  simp only [Option.some_bind]

/-! ### CometBFT consensus vote and its canonical sign-bytes encoding -/

/-- Modelled from the spec: the external consensus engine's `PartSetHeader`
    record, as used for the vote's block identifier (§4.5). -/
structure PartSetHeader where
  total : Nat
  hash : Bytes
deriving DecidableEq

/-- Modelled from the spec: the external consensus engine's `BlockID`
    record — a content hash plus a part-set header (§4.5). -/
structure BlockID where
  hash : Bytes
  partSetHeader : PartSetHeader
deriving DecidableEq

/-- Modelled from the spec: the fields of the external consensus engine's
    `Vote` record set by `MakeCometBFTVote` (§4.5): vote type, height,
    round, block identifier, timestamp (nanoseconds since the Unix epoch),
    validator address, and validator index. -/
structure Vote where
  type : Nat
  height : Int
  round : Int
  blockID : BlockID
  timestamp : Int
  validatorAddress : Bytes
  validatorIndex : Int
deriving DecidableEq

/-- The external consensus engine's `PrecommitType` enumeration value. -/
def precommitType : Nat := 2

/-- The eight little-endian bytes of the low 64 bits of a natural number
    (protobuf `sfixed64` payload). -/
def le64 (n : Nat) : Bytes :=
  [n % 256, n / 256 % 256, n / 65536 % 256, n / 16777216 % 256,
   n / 4294967296 % 256, n / 1099511627776 % 256,
   n / 281474976710656 % 256, n / 72057594037927936 % 256]

/-- Reassembling a natural number from eight little-endian bytes. -/
def le64val : Bytes → Nat
  | [b0, b1, b2, b3, b4, b5, b6, b7] =>
    b0 + 256 * b1 + 65536 * b2 + 16777216 * b3 + 4294967296 * b4 +
      1099511627776 * b5 + 281474976710656 * b6 + 72057594037927936 * b7
  | _ => 0

theorem le64val_le64 (n : Nat) (hn : n < 2 ^ 64) : le64val (le64 n) = n := by
  simp only [le64, le64val]
  omega

/-- The low 64 bits of an integer, as a natural number (the two's-complement
    bit pattern of a Go `int64`; the modulus is 2 ^ 64). -/
def u64bits (i : Int) : Nat :=
  (i % 18446744073709551616).toNat

theorem u64bits_lt (i : Int) : u64bits i < 2 ^ 64 := by
  unfold u64bits
  omega

theorem u64bits_int64cast (n : Nat) (hn : n < 2 ^ 64) :
    u64bits (int64cast n) = n := by
  unfold u64bits int64cast
  rw [Nat.mod_eq_of_lt hn]
  have h64 : (2 : Int) ^ 64 = 18446744073709551616 := by norm_num
  have h63 : (2 : Nat) ^ 63 = 9223372036854775808 := by norm_num
  rw [h63, h64]
  split <;> omega

/-- UTF-8 bytes of a single character. -/
def utf8Char (c : Char) : Bytes :=
  let cp := c.toNat
  if cp < 128 then [cp]
  else if cp < 2048 then [192 + cp / 64, 128 + cp % 64]
  else if cp < 65536 then [224 + cp / 4096, 128 + cp / 64 % 64, 128 + cp % 64]
  else [240 + cp / 262144, 128 + cp / 4096 % 64, 128 + cp / 64 % 64, 128 + cp % 64]

/-- UTF-8 bytes of a string. -/
def utf8Enc (s : String) : Bytes :=
  s.data.flatMap utf8Char

/-- Modelled from the spec: the canonical protobuf marshaling of a
    `google.protobuf.Timestamp` holding the given signed nanosecond count —
    seconds (field 1, varint of the two's-complement int64) then
    nanoseconds-of-second (field 2, varint), zero values omitted. -/
def marshalTimestamp (tNanos : Int) : Bytes :=
  (if tNanos.ediv 1000000000 ≠ 0 then
    8 :: uvarint (u64bits (tNanos.ediv 1000000000))
  else []) ++
  (if tNanos.emod 1000000000 ≠ 0 then
    16 :: uvarint (tNanos.emod 1000000000).toNat
  else [])

/-- Modelled from the spec: the external engine drops the block identifier
    from the canonical vote when it is entirely zero (empty hash and zero
    part-set header). -/
def canonicalizeBlockID (bid : BlockID) : Option BlockID :=
  if bid.hash = [] ∧ bid.partSetHeader.total = 0 ∧ bid.partSetHeader.hash = [] then
    none
  else
    some bid

/-- Modelled from the spec: canonical protobuf marshaling of the part-set
    header — total (field 1, varint) then hash (field 2, length-delimited),
    zero values omitted. -/
def marshalCanonicalPSH (psh : PartSetHeader) : Bytes :=
  (if psh.total ≠ 0 then 8 :: uvarint psh.total else []) ++
  (if psh.hash ≠ [] then 18 :: lenDelim psh.hash else [])

/-- Modelled from the spec: canonical protobuf marshaling of the block
    identifier — hash (field 1, length-delimited, omitted when empty) then
    the part-set header (field 2, always emitted). -/
def marshalCanonicalBID (bid : BlockID) : Bytes :=
  (if bid.hash ≠ [] then 10 :: lenDelim bid.hash else []) ++
  (18 :: lenDelim (marshalCanonicalPSH bid.partSetHeader))

/-- Modelled from the spec: the canonical vote record marshaling of the
    external consensus engine (§4.5) — type (field 1, varint), height
    (field 2, sfixed64), round (field 3, sfixed64), canonical block
    identifier (field 4), timestamp (field 5), chain ID (field 6,
    length-delimited UTF-8), with zero scalar fields and the nil block
    identifier omitted. -/
def marshalCanonicalVote (chainID : String) (v : Vote) : Bytes :=
  (if v.type ≠ 0 then 8 :: uvarint v.type else []) ++
  (if v.height ≠ 0 then 17 :: le64 (u64bits v.height) else []) ++
  (if v.round ≠ 0 then 25 :: le64 (u64bits v.round) else []) ++
  (match canonicalizeBlockID v.blockID with
   | some bid => 34 :: lenDelim (marshalCanonicalBID bid)
   | none => []) ++
  (42 :: lenDelim (marshalTimestamp v.timestamp)) ++
  (if chainID ≠ "" then 50 :: lenDelim (utf8Enc chainID) else [])

/-- Modelled from the spec: `cmtypes.VoteSignBytes`, the external consensus
    engine's canonical deterministic vote-sign-bytes algorithm (§4.5): the
    canonical vote marshaling, length-delimited. -/
def VoteSignBytes (chainID : String) (v : Vote) : Bytes :=
  lenDelim (marshalCanonicalVote chainID v)

/-- The vote record built by `MakeCometBFTVote` for header `h`, given the
    value `hash` of the header's content hash `Header.Hash()`: a precommit
    at the header's height, round 0, block ID `{hash, empty part-set
    header}`, the header's time, the proposer as validator, index 0. -/
def Header.cometBFTVote (h : Header) (hash : Bytes) : Vote :=
  { type := precommitType
    height := int64cast h.Height
    round := 0
    blockID := { hash := hash, partSetHeader := { total := 0, hash := [] } }
    timestamp := h.Time
    validatorAddress := h.ProposerAddress
    validatorIndex := 0 }

/-- `MakeCometBFTVote` makes a cometBFT consensus precommit vote for the
    sequencer to sign and encodes it with the engine's vote-sign-bytes
    algorithm under the header's chain ID. It is parametrized by the
    external content-hash function `hashFn` (`Header.Hash()` is repository
    code not included under src/; per §4.4 it is an opaque deterministic
    32-byte digest of all header fields). -/
def Header.MakeCometBFTVote (hashFn : Header → Bytes) (h : Header) : Bytes :=
  VoteSignBytes h.ChainID (h.cometBFTVote (hashFn h))

/-- C3: `MakeCometBFTVote(h)` returns exactly the vote-sign-bytes encoding,
    under `h`'s chain ID, of the record with vote type = precommit,
    height = the header height (as an int64), round = 0, block identifier =
    {hash = `h.Hash()`, empty part-set header}, timestamp = the header
    time, validator address = `h.ProposerAddress`, validator index = 0. -/
theorem makeCometBFTVote_record (hashFn : Header → Bytes) (h : Header) :
    Header.MakeCometBFTVote hashFn h =
      VoteSignBytes h.ChainID
        { type := precommitType
          height := int64cast h.Height
          round := 0
          blockID := { hash := hashFn h
                       partSetHeader := { total := 0, hash := [] } }
          timestamp := h.Time
          validatorAddress := h.ProposerAddress
          validatorIndex := 0 } :=
  rfl

theorem uvarint_small (n : Nat) (h : n < 128) : uvarint n = [n] := by
  rw [uvarint]
  simp [h]

theorem readN_of_length (n : Nat) (xs rest : Bytes) (h : xs.length = n) :
    readN n (xs ++ rest) = some (xs, rest) := by
  subst h
  exact readN_append xs rest

/-- Read the optional height field (tag 17, eight little-endian bytes) off
    the front of a canonical-vote body: the eight height bytes (`[]` when
    the field is absent) and the remainder. -/
def sbHeightField : Bytes → Bytes × Bytes
  | 17 :: rest =>
    (match readN 8 rest with
     | some (hb, rest') => (hb, rest')
     | none => ([], 17 :: rest))
  | rest => ([], rest)

/-- Extract the height bytes and the 32-byte block hash from a
    vote-sign-bytes sequence of the shape produced for header votes
    (precommit type, round 0, 32-byte block hash, empty part-set header). -/
def sbParse (bs : Bytes) : Option (Bytes × Bytes) :=
  match parseUvarint bs with
  | some (_, 8 :: 2 :: rest) =>
    (match sbHeightField rest with
     | (hb, 34 :: _ :: 10 :: 32 :: rest') =>
       (match readN 32 rest' with
        | some (hash, _) => some (hb, hash)
        | none => none)
     | _ => none)
  | _ => none

theorem sbParse_voteSignBytes (c : String) (hI t vi : Int) (hash addr : Bytes)
    (hl : hash.length = 32) :
    sbParse (VoteSignBytes c
      { type := precommitType
        height := hI
        round := 0
        blockID := { hash := hash, partSetHeader := { total := 0, hash := [] } }
        timestamp := t
        validatorAddress := addr
        validatorIndex := vi }) =
      some (if hI = 0 then [] else le64 (u64bits hI), hash) := by
  have hne : hash ≠ [] := by
    intro h
    rw [h] at hl
    simp at hl
  unfold VoteSignBytes marshalCanonicalVote canonicalizeBlockID marshalCanonicalBID
    marshalCanonicalPSH
  simp only [precommitType, hne, and_false, false_and, if_false, ite_not,
    if_neg (by omega : ¬ (2 : Nat) = 0), ne_eq, not_false_eq_true, if_pos,
    not_true_eq_false, ite_false, ite_true, if_neg hne]
  rw [uvarint_small 2 (by omega)]
  rw [show lenDelim hash = 32 :: hash from by rw [lenDelim, hl, uvarint_small 32 (by omega)]; rfl]
  simp only [List.nil_append, List.append_nil]
  rw [show lenDelim ([] : Bytes) = [0] from by
    rw [lenDelim]
    simp [uvarint_small 0 (by omega)]]
  by_cases h0 : hI = 0
  · simp only [h0, ite_true, if_pos rfl, not_true_eq_false, ite_false]
    rw [show ((10 : Nat) :: 32 :: hash) ++ 18 :: [0] = 10 :: 32 :: (hash ++ [18, 0]) from by simp]
    rw [show lenDelim (10 :: 32 :: (hash ++ [18, 0])) =
          36 :: 10 :: 32 :: (hash ++ [18, 0]) from by
        rw [lenDelim]
        simp [hl, uvarint_small 36 (by omega)]]
    unfold lenDelim
    simp only [List.append_assoc, List.nil_append, List.cons_append]
    rw [sbParse]
    rw [parseUvarint_uvarint]
    simp only [sbHeightField]
    rw [readN_of_length 32 hash _ hl]
  · simp only [if_neg h0, ite_false]
    rw [show ((10 : Nat) :: 32 :: hash) ++ 18 :: [0] = 10 :: 32 :: (hash ++ [18, 0]) from by simp]
    rw [show lenDelim (10 :: 32 :: (hash ++ [18, 0])) =
          36 :: 10 :: 32 :: (hash ++ [18, 0]) from by
        rw [lenDelim]
        simp [hl, uvarint_small 36 (by omega)]]
    unfold lenDelim
    simp only [List.append_assoc, List.nil_append, List.cons_append]
    rw [sbParse]
    rw [parseUvarint_uvarint]
    simp only [sbHeightField]
    rw [readN_of_length 8 (le64 (u64bits hI)) _ rfl]
    simp only []
    rw [readN_of_length 32 hash _ hl]

theorem sbParse_makeCometBFTVote (hashFn : Header → Bytes) (h : Header)
    (hl : (hashFn h).length = 32) :
    sbParse (Header.MakeCometBFTVote hashFn h) =
      some (if int64cast h.Height = 0 then []
            else le64 (u64bits (int64cast h.Height)), hashFn h) := by
  unfold Header.MakeCometBFTVote Header.cometBFTVote
  exact sbParse_voteSignBytes h.ChainID (int64cast h.Height) h.Time 0
    (hashFn h) h.ProposerAddress hl

theorem heightBytes_inj (n1 n2 : Nat) (hb1 : n1 < 2 ^ 64) (hb2 : n2 < 2 ^ 64)
    (he : (if int64cast n1 = 0 then ([] : Bytes)
           else le64 (u64bits (int64cast n1))) =
          (if int64cast n2 = 0 then ([] : Bytes)
           else le64 (u64bits (int64cast n2)))) :
    n1 = n2 := by
  by_cases z1 : int64cast n1 = 0 <;> by_cases z2 : int64cast n2 = 0
  · have hu : u64bits (int64cast n1) = u64bits (int64cast n2) := by rw [z1, z2]
    rwa [u64bits_int64cast n1 hb1, u64bits_int64cast n2 hb2] at hu
  · rw [if_pos z1, if_neg z2] at he
    exact absurd (congrArg List.length he) (by simp [le64])
  · rw [if_neg z1, if_pos z2] at he
    exact absurd (congrArg List.length he) (by simp [le64])
  · rw [if_neg z1, if_neg z2] at he
    have hv := congrArg le64val he
    rw [le64val_le64 _ (u64bits_lt _), le64val_le64 _ (u64bits_lt _)] at hv
    have e1 := u64bits_int64cast n1 hb1
    have e2 := u64bits_int64cast n2 hb2
    omega

/-- C5: the vote encoding is deterministic — headers equal in every field
    encode to identical bytes — and sensitive to its inputs: headers with
    different (64-bit) heights encode differently; headers with different
    proposer addresses whose content hashes therefore differ (the digest is
    collision-resistant per §4.4) encode differently; and the same header
    under two different 32-byte content hashes encodes differently. -/
theorem makeCometBFTVote_deterministic_sensitive (hashFn : Header → Bytes) :
    (∀ h1 h2 : Header,
      h1.baseHeader.Height = h2.baseHeader.Height →
      h1.baseHeader.Time = h2.baseHeader.Time →
      h1.baseHeader.ChainID = h2.baseHeader.ChainID →
      h1.version = h2.version →
      h1.LastHeaderHash = h2.LastHeaderHash →
      h1.LastCommitHash = h2.LastCommitHash →
      h1.DataHash = h2.DataHash →
      h1.ConsensusHash = h2.ConsensusHash →
      h1.AppHash = h2.AppHash →
      h1.ValidatorHash = h2.ValidatorHash →
      h1.LastResultsHash = h2.LastResultsHash →
      h1.ProposerAddress = h2.ProposerAddress →
      Header.MakeCometBFTVote hashFn h1 = Header.MakeCometBFTVote hashFn h2) ∧
    (∀ h1 h2 : Header,
      (hashFn h1).length = 32 → (hashFn h2).length = 32 →
      h1.Height < 2 ^ 64 → h2.Height < 2 ^ 64 → h1.Height ≠ h2.Height →
      Header.MakeCometBFTVote hashFn h1 ≠ Header.MakeCometBFTVote hashFn h2) ∧
    (∀ h1 h2 : Header,
      (hashFn h1).length = 32 → (hashFn h2).length = 32 →
      h1.ProposerAddress ≠ h2.ProposerAddress → hashFn h1 ≠ hashFn h2 →
      Header.MakeCometBFTVote hashFn h1 ≠ Header.MakeCometBFTVote hashFn h2) ∧
    (∀ (h : Header) (hash1 hash2 : Bytes),
      hash1.length = 32 → hash2.length = 32 → hash1 ≠ hash2 →
      VoteSignBytes h.ChainID (h.cometBFTVote hash1) ≠
        VoteSignBytes h.ChainID (h.cometBFTVote hash2)) := by
  refine ⟨?_, ?_, ?_, ?_⟩
  · intro h1 h2 e1 e2 e3 e4 e5 e6 e7 e8 e9 e10 e11 e12
    have hh : h1 = h2 := by
      cases h1 with
      | mk b1 v1 x1 x2 x3 x4 x5 x6 x7 p1 =>
        cases h2 with
        | mk b2 v2 y1 y2 y3 y4 y5 y6 y7 p2 =>
          cases b1
          cases b2
          simp_all
    rw [hh]
  · intro h1 h2 hl1 hl2 hb1 hb2 hne heq
    have p := congrArg sbParse heq
    rw [sbParse_makeCometBFTVote hashFn h1 hl1,
        sbParse_makeCometBFTVote hashFn h2 hl2] at p
    simp only [Option.some.injEq, Prod.mk.injEq] at p
    exact hne (heightBytes_inj h1.Height h2.Height hb1 hb2 p.1)
  · intro h1 h2 hl1 hl2 hpa hne heq
    have p := congrArg sbParse heq
    rw [sbParse_makeCometBFTVote hashFn h1 hl1,
        sbParse_makeCometBFTVote hashFn h2 hl2] at p
    simp only [Option.some.injEq, Prod.mk.injEq] at p
    exact hne p.2
  · intro h hash1 hash2 hl1 hl2 hne heq
    have p := congrArg sbParse heq
    unfold Header.cometBFTVote at p
    rw [sbParse_voteSignBytes h.ChainID (int64cast h.Height) h.Time 0
          hash1 h.ProposerAddress hl1,
        sbParse_voteSignBytes h.ChainID (int64cast h.Height) h.Time 0
          hash2 h.ProposerAddress hl2] at p
    simp only [Option.some.injEq, Prod.mk.injEq] at p
    exact hne p.2

/-- A concrete 32-byte stand-in content digest (the proposer address padded
    with zeros to 32 bytes), used to instantiate the sensitivity theorem on
    concrete headers. -/
def padDigest (h : Header) : Bytes :=
  (h.ProposerAddress ++ List.replicate 32 0).take 32

/-- Witness for C5: under the concrete digest, the sample headers with
    different heights (and different proposers, hence different digests)
    encode to different vote bytes, and a fixed header under two different
    32-byte content hashes encodes to different vote bytes. -/
theorem makeCometBFTVote_deterministic_sensitive_witness :
    Header.MakeCometBFTVote padDigest hdrA ≠ Header.MakeCometBFTVote padDigest hdrB ∧
    VoteSignBytes hdrA.ChainID (hdrA.cometBFTVote (List.replicate 32 1)) ≠
      VoteSignBytes hdrA.ChainID (hdrA.cometBFTVote (List.replicate 32 2)) :=
  ⟨(makeCometBFTVote_deterministic_sensitive padDigest).2.1 hdrA hdrB
      (by decide) (by decide) (by decide) (by decide) (by decide),
   (makeCometBFTVote_deterministic_sensitive padDigest).2.2.2 hdrA
      (List.replicate 32 1) (List.replicate 32 2)
      (by decide) (by decide) (by decide)⟩

/-! ### State-passing forms of the operations

Go methods take the header receiver by pointer; a state-passing translation
of each method returns the method's result together with the final receiver
(and argument) state. The bodies below thread the state through each step
of the corresponding Go body, which contains no assignment to any field. -/

/-- State-passing `ChainID`. -/
def Header.ChainIDFx (h : Header) : String × Header :=
  (h.baseHeader.ChainID, h)

/-- State-passing `Height`. -/
def Header.HeightFx (h : Header) : Nat × Header :=
  (h.baseHeader.Height, h)

/-- State-passing `Time`. -/
def Header.TimeFx (h : Header) : Int × Header :=
  (int64cast h.baseHeader.Time, h)

/-- State-passing `LastHeader`. -/
def Header.LastHeaderFx (h : Header) : Hash × Header :=
  (h.LastHeaderHash, h)

/-- State-passing `Verify`: result plus final states of the trusted
    receiver and the candidate argument. -/
def Header.VerifyFx (h untrstH : Header) :
    Except HeaderError Unit × Header × Header :=
  if untrstH.ProposerAddress ≠ h.ProposerAddress then
    (.error (.verifyError (mismatchMsg h.ProposerAddress untrstH.ProposerAddress)),
     h, untrstH)
  else
    (.ok (), h, untrstH)

/-- State-passing `ValidateBasic`. -/
def Header.ValidateBasicFx (h : Header) : Except HeaderError Unit × Header :=
  if h.ProposerAddress.length = 0 then
    (.error .noProposerAddress, h)
  else
    (.ok (), h)

/-- State-passing `Validate`, delegating to `ValidateBasicFx`. -/
def Header.ValidateFx (h : Header) : Except HeaderError Unit × Header :=
  match h.ValidateBasicFx with
  | (r, h') => (r, h')

/-- State-passing `MakeCometBFTVote`. -/
def Header.MakeCometBFTVoteFx (hashFn : Header → Bytes) (h : Header) :
    Bytes × Header :=
  (VoteSignBytes h.ChainID (h.cometBFTVote (hashFn h)), h)

/-- C8: no operation of the core mutates a header. Each state-passing
    operation returns its receiver (and argument) unchanged, in success and
    error outcomes alike, and its result agrees with the pure function. -/
theorem operations_preserve_headers (hashFn : Header → Bytes) (h c : Header) :
    h.ValidateBasicFx.2 = h ∧ h.ValidateBasicFx.1 = h.ValidateBasic ∧
    h.ValidateFx.2 = h ∧ h.ValidateFx.1 = h.Validate ∧
    (h.VerifyFx c).2 = (h, c) ∧ (h.VerifyFx c).1 = h.Verify c ∧
    (Header.MakeCometBFTVoteFx hashFn h).2 = h ∧
    (Header.MakeCometBFTVoteFx hashFn h).1 = Header.MakeCometBFTVote hashFn h ∧
    h.ChainIDFx = (h.ChainID, h) ∧
    h.HeightFx = (h.Height, h) ∧
    h.TimeFx = (h.Time, h) ∧
    h.LastHeaderFx = (h.LastHeader, h) :=
  ⟨by unfold Header.ValidateBasicFx
      by_cases hp : h.ProposerAddress.length = 0 <;> simp [hp],
   by unfold Header.ValidateBasicFx Header.ValidateBasic
      by_cases hp : h.ProposerAddress.length = 0 <;> simp [hp],
   by unfold Header.ValidateFx Header.ValidateBasicFx
      by_cases hp : h.ProposerAddress.length = 0 <;> simp [hp],
   by unfold Header.ValidateFx Header.Validate Header.ValidateBasicFx
        Header.ValidateBasic
      by_cases hp : h.ProposerAddress.length = 0 <;> simp [hp],
   by unfold Header.VerifyFx
      by_cases hp : c.ProposerAddress = h.ProposerAddress <;> simp [hp],
   by unfold Header.VerifyFx Header.Verify
      by_cases hp : c.ProposerAddress = h.ProposerAddress <;> simp [hp],
   rfl, rfl, rfl, rfl, rfl, rfl⟩

end Rollkit
